import Mathlib

/-!
Verification of the streaming segmentation and transcript-reconciliation
engine of WhisperSTT (WhisperLinux/whisper_cli.py), shallowly embedded in
Lean 4.  Python strings are modelled as lists of characters, raw PCM byte
buffers as lists of naturals, and the fallible external recognizer call as
a value of an Except type.
-/

/-- Audio sample rate fixed by the program (whisper_cli.py line 16). -/
def SAMPLE_RATE : Nat := 16000

/-- Channel count fixed by the program (line 17). -/
def CHANNELS : Nat := 1

/-- Bytes per sample fixed by the program, 16-bit audio (line 18). -/
def SAMPLE_WIDTH : Nat := 2

/-- Whitespace predicate used by the model of Python str.strip and
str.split: space, tab, newline, carriage return, vertical tab, form feed
(the ASCII fragment of Python whitespace). -/
def pySpace (c : Char) : Bool :=
  c = ' ' || c = '\t' || c = '\n' || c = '\r' || c = Char.ofNat 11 || c = Char.ofNat 12

/-- Model of Python str.strip(): remove leading and trailing whitespace. -/
def pyStrip (s : List Char) : List Char :=
  (((s.dropWhile pySpace).reverse).dropWhile pySpace).reverse

/-- Accumulator-style worker for the model of Python str.split(): the
accumulator holds the characters of the word being read, in reverse. -/
def splitAux : List Char → List Char → List (List Char)
  | [], acc => if acc = [] then [] else [acc.reverse]
  | c :: rest, acc =>
    if pySpace c then
      if acc = [] then splitAux rest [] else acc.reverse :: splitAux rest []
    else splitAux rest (c :: acc)

/-- Model of Python str.split() with no argument: split on runs of
whitespace, discarding empty fields. -/
def pySplit (s : List Char) : List (List Char) := splitAux s []

/-- Model of Python " ".join(words): concatenate words with a single
space between consecutive words. -/
def joinWords : List (List Char) → List Char
  | [] => []
  | [w] => w
  | w :: x :: ws => w ++ ' ' :: joinWords (x :: ws)

/-- The suffix/prefix overlap test of the merge loop (whisper_cli.py
line 151): the last k words of P coincide with the first k words of N. -/
def wMatch (P N : List (List Char)) (k : Nat) : Prop :=
  P.drop (P.length - k) = N.take k

instance (P N : List (List Char)) (k : Nat) : Decidable (wMatch P N k) := by
  unfold wMatch; infer_instance

/-- The countdown search loop of merge_text (whisper_cli.py lines
150-152): for k from m down to 1, if the last k words of P equal the
first k words of N, answer with P minus its last k words followed by all
of N; otherwise answer nothing. -/
def mergeLoop (P N : List (List Char)) : Nat → Option (List (List Char))
  | 0 => none
  | k + 1 =>
    if wMatch P N (k + 1) then
      some (P.take (P.length - (k + 1)) ++ N)
    else mergeLoop P N k

/-- Embedding of merge_text (whisper_cli.py lines 139-153): strip both
inputs, handle the empty cases, then search for the longest suffix/prefix
word overlap up to 6 words; on a match join the merged word list with
single spaces, otherwise concatenate the stripped inputs with one space
and strip the result. -/
def merge_text (prev new : List Char) : List Char :=
  let prevS := pyStrip prev
  let newS := pyStrip new
  if prevS = [] then newS
  else if newS = [] then prevS
  else
    let prev_words := pySplit prevS
    let new_words := pySplit newS
    let max_check := min 6 (min prev_words.length new_words.length)
    match mergeLoop prev_words new_words max_check with
    | some ws => joinWords ws
    | none => pyStrip (prevS ++ ' ' :: newS)

/-- Outcome of the external process run inside run_transcribe: its exit
status and captured output streams. -/
structure ProcResult where
  returncode : Int
  stdout : List Char
  stderr : List Char

/-- Embedding of run_transcribe (whisper_cli.py lines 161-168).  The
wall-clock latency measurement is a parameter; the function raises (the
error side of Except) exactly when the exit status is nonzero, with the
stripped stderr as diagnostic, falling back to a fixed message when
stderr strips to empty; otherwise it answers the stripped stdout together
with the latency. -/
def run_transcribe (r : ProcResult) (latency : ℚ) : Except (List Char) (List Char × ℚ) :=
  if r.returncode ≠ 0 then
    Except.error (if pyStrip r.stderr ≠ [] then pyStrip r.stderr
                  else "Transcription command failed".toList)
  else Except.ok (pyStrip r.stdout, latency)

/-- The framing step of the streaming loop (whisper_cli.py lines
270-274): when the buffer holds at least chunkB bytes, extract the front
chunkB bytes as the window and keep the buffer from position
chunkB - overlapB on; otherwise keep the buffer whole and produce no
window. -/
def try_cut_window (chunkB overlapB : Nat) (buf : List Nat) :
    Option (List Nat) × List Nat :=
  if buf.length < chunkB then (none, buf)
  else (some (buf.take chunkB), buf.drop (chunkB - overlapB))

/-- Mutable state of the streaming loop: the PCM byte buffer and the
confirmed transcript. -/
structure StreamState where
  buffer : List Nat
  confirmed : List Char
deriving DecidableEq

/-- One iteration of the streaming loop body after a nonempty read
(whisper_cli.py lines 269-290): extend the buffer, try to cut a window,
and on success invoke the recognizer on the window; a recognizer error
propagates (the Python code has no handler around run_transcribe), while
a recognized text is merged into the confirmed transcript. -/
def streamStep (recognize : List Nat → Except (List Char) (List Char × ℚ))
    (chunkB overlapB : Nat) (st : StreamState) (data : List Nat) :
    Except (List Char) StreamState :=
  let buf := st.buffer ++ data
  match try_cut_window chunkB overlapB buf with
  | (none, buf2) => Except.ok { buffer := buf2, confirmed := st.confirmed }
  | (some chunk, buf2) =>
    match recognize chunk with
    | Except.error e => Except.error e
    | Except.ok (text, _) =>
      Except.ok { buffer := buf2, confirmed := merge_text st.confirmed text }

/-- The streaming session loop (whisper_cli.py lines 265-290) over a
list of reads from the capture process.  An empty read models
end-of-stream and exits the loop normally; exhausting the reads models
the stop flag.  An ok result carries the state reaching the final
transcription report; an error result models the uncaught exception path
on which the session aborts and the final report is skipped. -/
def streamLoop (recognize : List Nat → Except (List Char) (List Char × ℚ))
    (chunkB overlapB : Nat) :
    StreamState → List (List Nat) → Except (List Char) StreamState
  | st, [] => Except.ok st
  | st, d :: rest =>
    if d = [] then Except.ok st
    else
      match streamStep recognize chunkB overlapB st d with
      | Except.error e => Except.error e
      | Except.ok st2 => streamLoop recognize chunkB overlapB st2 rest

/-- Result of the streaming-mode configuration check in main
(whisper_cli.py lines 338-341): either the policy is rejected before any
capture, or the capture session runs. -/
inductive ConfigCheck (α : Type) where
  | rejected : ConfigCheck α
  | run : α → ConfigCheck α
deriving DecidableEq

/-- Embedding of the streaming branch of main (whisper_cli.py lines
336-341): after the prompts, a policy with overlap_seconds >=
chunk_seconds exits before capture_streaming is called; otherwise the
capture session runs on the accepted policy.  The capture session itself
is a parameter, so that the rejected branch visibly invokes nothing. -/
def streamingGate {α : Type} (capture : ℚ → ℚ → α)
    (chunk_seconds overlap_seconds : ℚ) : ConfigCheck α :=
  if overlap_seconds ≥ chunk_seconds then ConfigCheck.rejected
  else ConfigCheck.run (capture chunk_seconds overlap_seconds)

/-- Outcome of the post-capture phase of a clip session: either the
no-audio report, or a written container plus the recognizer's answer. -/
inductive ClipOutcome (α : Type) where
  | noAudio : ClipOutcome α
  | transcribed : List Nat → α → ClipOutcome α
deriving DecidableEq

/-- Embedding of the post-capture phase of capture_clip (whisper_cli.py
lines 214-228): with zero captured bytes the session reports no audio and
neither writes a container nor invokes the recognizer; otherwise the
captured bytes are written and transcribed.  The transcription is a
parameter, so that the no-audio branch visibly invokes nothing. -/
def clipFinish {α : Type} (transcribe : List Nat → α) (pcm : List Nat) :
    ClipOutcome α :=
  if pcm = [] then ClipOutcome.noAudio
  else ClipOutcome.transcribed pcm (transcribe pcm)

/-- The audio format parameters of a session, as in the specification
data model. -/
structure AudioSpec where
  sample_rate : Nat
  channels : Nat
  sample_width : Nat

/-- The fixed AudioSpec of every session of this program. -/
def sessionSpec : AudioSpec :=
  { sample_rate := SAMPLE_RATE, channels := CHANNELS, sample_width := SAMPLE_WIDTH }

/-- Bytes of PCM data per second of audio, from the specification data
model. -/
def bytesPerSecond (s : AudioSpec) : Nat :=
  s.sample_rate * s.channels * s.sample_width

/-- The audio duration computation of the loop (whisper_cli.py line 285
and line 224): byte count divided by SAMPLE_RATE * SAMPLE_WIDTH. -/
def audio_sec (nbytes : Nat) : ℚ :=
  (nbytes : ℚ) / ((SAMPLE_RATE : ℚ) * (SAMPLE_WIDTH : ℚ))

/-- The real-time-factor computation of the loop (whisper_cli.py line 286
and line 225): latency divided by audio duration when the latter is
positive, else 0. -/
def rtf (latency : ℚ) (nbytes : Nat) : ℚ :=
  if audio_sec nbytes > 0 then latency / audio_sec nbytes else 0

/-- Model of Python int() applied to a nonintegral number: truncation
toward zero, here as T-division of a rational's numerator by its
denominator. -/
def pyInt (q : ℚ) : Int :=
  Int.tdiv q.num (q.den : Int)

/-- The window size computation of capture_streaming (whisper_cli.py
line 257): int(chunk_seconds * SAMPLE_RATE * SAMPLE_WIDTH). -/
def chunk_bytes (chunk_seconds : ℚ) : Int :=
  pyInt (chunk_seconds * (SAMPLE_RATE : ℚ) * (SAMPLE_WIDTH : ℚ))

/-- The retained-overlap size computation of capture_streaming
(whisper_cli.py line 258): int(overlap_seconds * SAMPLE_RATE *
SAMPLE_WIDTH). -/
def overlap_bytes (overlap_seconds : ℚ) : Int :=
  pyInt (overlap_seconds * (SAMPLE_RATE : ℚ) * (SAMPLE_WIDTH : ℚ))

lemma dropWhile_head_false {p : Char → Bool} {l : List Char} {a : Char}
    (h : (l.dropWhile p).head? = some a) : p a = false := by
  induction l with
  | nil => simp at h
  | cons c t ih =>
    rw [List.dropWhile_cons] at h
    by_cases hc : p c = true
    · exact ih (by simpa [hc] using h)
    · simp only [hc, if_false] at h
      simp at h
      rw [← h]
      simpa using hc

lemma dropWhile_getLast?_of_ne_nil {p : Char → Bool} {l : List Char}
    (h : l.dropWhile p ≠ []) : (l.dropWhile p).getLast? = l.getLast? := by
  induction l with
  | nil => simp at h
  | cons c t ih =>
    rw [List.dropWhile_cons] at h ⊢
    by_cases hc : p c = true
    · simp only [hc, if_true] at h ⊢
      have ht : t ≠ [] := by
        intro he; rw [he] at h; simp at h
      obtain ⟨x, xs, rfl⟩ := List.exists_cons_of_ne_nil ht
      rw [ih h, List.getLast?_cons_cons]
    · simp [hc]

lemma pyStrip_getLast?_false {s : List Char} {a : Char}
    (h : (pyStrip s).getLast? = some a) : pySpace a = false := by
  unfold pyStrip at h
  rw [List.getLast?_reverse] at h
  exact dropWhile_head_false h

lemma pyStrip_head?_false {s : List Char} {a : Char}
    (h : (pyStrip s).head? = some a) : pySpace a = false := by
  unfold pyStrip at h
  rw [List.head?_reverse] at h
  have hne : ((s.dropWhile pySpace).reverse).dropWhile pySpace ≠ [] := by
    intro he; rw [he] at h; simp at h
  rw [dropWhile_getLast?_of_ne_nil hne, List.getLast?_reverse] at h
  exact dropWhile_head_false h

lemma pyStrip_eq_self {l : List Char}
    (h1 : ∀ x, l.head? = some x → pySpace x = false)
    (h2 : ∀ x, l.getLast? = some x → pySpace x = false) :
    pyStrip l = l := by
  have hdw : ∀ (m : List Char), (∀ x, m.head? = some x → pySpace x = false) →
      m.dropWhile pySpace = m := by
    intro m hm
    cases m with
    | nil => rfl
    | cons c t =>
      rw [List.dropWhile_cons, if_neg]
      simp [hm c rfl]
  unfold pyStrip
  rw [hdw l h1]
  rw [hdw l.reverse (by intro x hx; rw [List.head?_reverse] at hx; exact h2 x hx)]
  exact List.reverse_reverse l

lemma pyStrip_idem (s : List Char) : pyStrip (pyStrip s) = pyStrip s := by
  rcases he : pyStrip s with _ | ⟨c, t⟩
  · rfl
  · rw [← he]
    exact pyStrip_eq_self (fun x hx => pyStrip_head?_false hx)
      (fun x hx => pyStrip_getLast?_false hx)

lemma splitAux_words {l acc : List Char}
    (hacc : ∀ c ∈ acc, pySpace c = false) :
    ∀ w ∈ splitAux l acc, w ≠ [] ∧ ∀ c ∈ w, pySpace c = false := by
  induction l generalizing acc with
  | nil =>
    intro w hw
    unfold splitAux at hw
    by_cases h : acc = []
    · simp [h] at hw
    · simp only [h, if_false] at hw
      rw [List.mem_singleton] at hw
      subst hw
      refine ⟨by simpa using h, ?_⟩
      intro c hc
      exact hacc c (List.mem_reverse.mp hc)
  | cons c t ih =>
    intro w hw
    unfold splitAux at hw
    by_cases hc : pySpace c = true
    · simp only [hc, if_true] at hw
      by_cases h : acc = []
      · rw [if_pos h] at hw
        exact ih (by simp) w hw
      · rw [if_neg h] at hw
        rcases List.mem_cons.mp hw with hw | hw
        · subst hw
          refine ⟨by simpa using h, ?_⟩
          intro x hx
          exact hacc x (List.mem_reverse.mp hx)
        · exact ih (by simp) w hw
    · simp only [hc, if_false] at hw
      refine ih ?_ w hw
      intro x hx
      rcases List.mem_cons.mp hx with hx | hx
      · subst hx; simpa using hc
      · exact hacc x hx

lemma pySplit_words {s : List Char} :
    ∀ w ∈ pySplit s, w ≠ [] ∧ ∀ c ∈ w, pySpace c = false :=
  splitAux_words (by simp)

lemma splitAux_ne_nil_of_acc {l acc : List Char} (h : acc ≠ []) :
    splitAux l acc ≠ [] := by
  induction l generalizing acc with
  | nil => unfold splitAux; simp [h]
  | cons c t ih =>
    unfold splitAux
    by_cases hc : pySpace c = true
    · simp [hc, h]
    · simp only [hc, if_false]
      exact ih (by simp)

lemma pySplit_ne_nil {s : List Char} (hs : s ≠ [])
    (hhead : ∀ x, s.head? = some x → pySpace x = false) :
    pySplit s ≠ [] := by
  obtain ⟨c, t, rfl⟩ := List.exists_cons_of_ne_nil hs
  unfold pySplit splitAux
  rw [if_neg (by simp [hhead c rfl])]
  exact splitAux_ne_nil_of_acc (by simp)

lemma joinWords_ne_nil {ws : List (List Char)} (h : ws ≠ [])
    (hw : ∀ w ∈ ws, w ≠ []) : joinWords ws ≠ [] := by
  match ws with
  | [] => exact absurd rfl h
  | [w] => exact hw w (by simp)
  | w :: x :: rest =>
    show w ++ ' ' :: joinWords (x :: rest) ≠ []
    simp

lemma joinWords_head?_false : ∀ (ws : List (List Char)),
    (∀ w ∈ ws, w ≠ [] ∧ ∀ c ∈ w, pySpace c = false) →
    ∀ a, (joinWords ws).head? = some a → pySpace a = false := by
  intro ws
  induction ws with
  | nil => intro _ a ha; simp [joinWords] at ha
  | cons w rest ih =>
    intro hw a ha
    cases rest with
    | nil =>
      exact (hw w (by simp)).2 a (List.mem_of_mem_head? ha)
    | cons x rs =>
      have hwne : w ≠ [] := (hw w (by simp)).1
      have hh : (joinWords (w :: x :: rs)).head? = w.head? := by
        show (w ++ ' ' :: joinWords (x :: rs)).head? = w.head?
        rw [List.head?_append, List.head?_eq_head hwne, Option.or_some]
      rw [hh] at ha
      exact (hw w (by simp)).2 a (List.mem_of_mem_head? ha)

lemma joinWords_getLast?_false : ∀ (ws : List (List Char)),
    (∀ w ∈ ws, w ≠ [] ∧ ∀ c ∈ w, pySpace c = false) →
    ∀ a, (joinWords ws).getLast? = some a → pySpace a = false := by
  intro ws
  induction ws with
  | nil => intro _ a ha; simp [joinWords] at ha
  | cons w rest ih =>
    intro hw a ha
    cases rest with
    | nil =>
      exact (hw w (by simp)).2 a (List.mem_of_mem_getLast? ha)
    | cons x rs =>
      have hjne : joinWords (x :: rs) ≠ [] :=
        joinWords_ne_nil (by simp) (fun v hv => (hw v (by simp [hv])).1)
      obtain ⟨y, ys, hys⟩ := List.exists_cons_of_ne_nil hjne
      have hl : (joinWords (w :: x :: rs)).getLast? = (joinWords (x :: rs)).getLast? := by
        show (w ++ ' ' :: joinWords (x :: rs)).getLast? = _
        rw [List.getLast?_append, hys, List.getLast?_cons_cons, ← hys]
        have : (joinWords (x :: rs)).getLast? ≠ none := by
          rw [hys]
          simp [List.getLast?_eq_none_iff]
        obtain ⟨b, hb⟩ := Option.ne_none_iff_exists'.mp this
        rw [hb, Option.or_some]
      rw [hl] at ha
      exact ih (fun v hv => hw v (by simp [List.mem_cons.mp hv])) a ha

lemma mergeLoop_eq_none {P N : List (List Char)} :
    ∀ m, (∀ j, 1 ≤ j → j ≤ m → ¬ wMatch P N j) → mergeLoop P N m = none := by
  intro m
  induction m with
  | zero => intro _; rfl
  | succ k ih =>
    intro h
    unfold mergeLoop
    rw [if_neg (h (k + 1) (Nat.succ_le_succ (Nat.zero_le k)) le_rfl)]
    exact ih fun j h1 h2 => h j h1 (Nat.le_succ_of_le h2)

lemma mergeLoop_eq_some {P N : List (List Char)} {k : Nat}
    (hk1 : 1 ≤ k) (hmatch : wMatch P N k) :
    ∀ m, k ≤ m → (∀ j, k < j → j ≤ m → ¬ wMatch P N j) →
    mergeLoop P N m = some (P.take (P.length - k) ++ N) := by
  intro m
  induction m with
  | zero => intro hm; omega
  | succ i ih =>
    intro hm hno
    unfold mergeLoop
    by_cases he : k = i + 1
    · subst he
      rw [if_pos hmatch]
    · have hki : k ≤ i := by omega
      rw [if_neg (hno (i + 1) (by omega) le_rfl)]
      exact ih hki fun j h1 h2 => hno j h1 (Nat.le_succ_of_le h2)

lemma mergeLoop_isSome {P N : List (List Char)} {k : Nat}
    (hk1 : 1 ≤ k) (hmatch : wMatch P N k) :
    ∀ m, k ≤ m → ∃ ws, mergeLoop P N m = some ws := by
  intro m
  induction m with
  | zero => intro hm; omega
  | succ i ih =>
    intro hm
    unfold mergeLoop
    by_cases hw : wMatch P N (i + 1)
    · exact ⟨_, by rw [if_pos hw]⟩
    · have hki : k ≤ i := by
        rcases Nat.lt_succ_iff_lt_or_eq.mp (Nat.lt_succ_of_le hm) with h | h
        · omega
        · exact absurd (h ▸ hmatch) hw
      rw [if_neg hw]
      exact ih hki

lemma mergeLoop_mem {P N : List (List Char)} :
    ∀ m ws, mergeLoop P N m = some ws → ∀ w ∈ ws, w ∈ P ∨ w ∈ N := by
  intro m
  induction m with
  | zero => intro ws h; exact absurd h (by unfold mergeLoop; simp)
  | succ i ih =>
    intro ws h w hw
    unfold mergeLoop at h
    by_cases hc : wMatch P N (i + 1)
    · rw [if_pos hc] at h
      cases h
      rcases List.mem_append.mp hw with h | h
      · exact Or.inl (List.mem_of_mem_take h)
      · exact Or.inr h
    · rw [if_neg hc] at h
      exact ih ws h w hw

lemma pyStrip_concat_eq_self {p n : List Char}
    (hp : pyStrip p ≠ []) (hn : pyStrip n ≠ []) :
    pyStrip (pyStrip p ++ ' ' :: pyStrip n) = pyStrip p ++ ' ' :: pyStrip n := by
  apply pyStrip_eq_self
  · intro x hx
    rw [List.head?_append, List.head?_eq_head hp, Option.or_some] at hx
    exact pyStrip_head?_false ((List.head?_eq_head hp).trans (by rw [← hx]))
  · intro x hx
    obtain ⟨c, t, hct⟩ := List.exists_cons_of_ne_nil hn
    rw [List.getLast?_append] at hx
    rw [hct, List.getLast?_cons_cons, ← hct] at hx
    have hsome : ∃ b, (pyStrip n).getLast? = some b := by
      rw [hct]
      exact List.getLast?_eq_getLast (c :: t) (by simp) ▸ ⟨_, rfl⟩
    obtain ⟨b, hb⟩ := hsome
    rw [hb, Option.or_some] at hx
    cases hx
    exact pyStrip_getLast?_false hb

lemma mergeLoop_shape {P N : List (List Char)} :
    ∀ m ws, mergeLoop P N m = some ws →
    ∃ k, ws = P.take (P.length - k) ++ N := by
  intro m
  induction m with
  | zero => intro ws h; exact absurd h (by unfold mergeLoop; simp)
  | succ i ih =>
    intro ws h
    unfold mergeLoop at h
    by_cases hc : wMatch P N (i + 1)
    · rw [if_pos hc] at h
      cases h
      exact ⟨i + 1, rfl⟩
    · rw [if_neg hc] at h
      exact ih ws h

/-- Claim C2: with both inputs nonempty after trimming, merge_text
searches overlap widths from min(6, len P, len N) down to 1; at the
largest matching width k it answers P without its last k words followed
by all of N, joined by single spaces, and when no width in that range
matches (in particular when the only overlap is 7 or more words long) it
answers the two trimmed inputs concatenated with one space. -/
theorem merge_text_bounded_overlap (p n : List Char)
    (hp : pyStrip p ≠ []) (hn : pyStrip n ≠ [])
    (P N : List (List Char))
    (hP : P = pySplit (pyStrip p)) (hN : N = pySplit (pyStrip n))
    (kmax : Nat) (hkmax : kmax = min 6 (min P.length N.length)) :
    (∀ k, 1 ≤ k → k ≤ kmax → wMatch P N k →
        (∀ j, j < kmax + 1 → k < j → ¬ wMatch P N j) →
        merge_text p n = joinWords (P.take (P.length - k) ++ N)) ∧
    ((∀ j, j < kmax + 1 → 1 ≤ j → ¬ wMatch P N j) →
        merge_text p n = pyStrip p ++ ' ' :: pyStrip n) := by
  subst hP hN hkmax
  constructor
  · intro k hk1 hk2 hmatch hno
    have hloop := mergeLoop_eq_some hk1 hmatch _ hk2
      (fun j h1 h2 => hno j (Nat.lt_succ_of_le h2) h1)
    simp only [merge_text]
    rw [if_neg hp, if_neg hn, hloop]
  · intro hno
    have hloop := mergeLoop_eq_none _
      (fun j h1 h2 => hno j (Nat.lt_succ_of_le h2) h1)
    simp only [merge_text]
    rw [if_neg hp, if_neg hn, hloop]
    exact pyStrip_concat_eq_self hp hn

/-- Witness for claim C2: a 2-word overlap merge and a case whose only
overlap is 7 words long, which falls back to plain concatenation. -/
theorem merge_text_bounded_overlap_witness :
    merge_text ("the quick brown fox".toList) ("brown fox jumps".toList) =
      ("the quick brown fox jumps").toList ∧
    merge_text ("a b c d e f g".toList) ("a b c d e f g h".toList) =
      ("a b c d e f g a b c d e f g h").toList := by
  constructor
  · have h := (merge_text_bounded_overlap ("the quick brown fox".toList)
      ("brown fox jumps".toList) (by decide) (by decide) _ _ rfl rfl _ rfl).1
      2 (by decide) (by decide) (by decide) (by decide)
    exact h.trans (by decide)
  · have h := (merge_text_bounded_overlap ("a b c d e f g".toList)
      ("a b c d e f g h".toList) (by decide) (by decide) _ _ rfl rfl _ rfl).2
      (by decide)
    exact h.trans (by decide)

/-- Counterexample for claim C5: merge_text strips its first argument
even when the fragment is empty, so a confirmed text carrying outer
whitespace is not returned unchanged. -/
theorem merge_text_confirmed_not_unchanged :
    merge_text ("  hello  ".toList) ("".toList) ≠ ("  hello  ").toList := by
  decide

/-- Claim C5 (amended): merge_text with an empty confirmed text returns
the fragment trimmed, and merge_text with an empty fragment returns the
confirmed text trimmed (hence unchanged exactly when it carries no outer
whitespace). -/
theorem merge_text_empty_identities (c f : List Char) :
    merge_text [] f = pyStrip f ∧ merge_text c [] = pyStrip c := by
  have hnil : pyStrip ([] : List Char) = [] := rfl
  constructor
  · simp only [merge_text]
    rw [if_pos hnil]
  · simp only [merge_text]
    by_cases hc : pyStrip c = []
    · rw [if_pos hc, hc, hnil]
    · rw [if_neg hc, if_pos hnil]

/-- Claim C10: merge_text output carries no leading or trailing
whitespace; merge_text is insensitive to leading/trailing whitespace of
either argument; when an overlap is detected the output is a list of
nonempty whitespace-free words joined by single spaces, collapsing any
internal whitespace runs of the inputs; and the no-overlap path
concatenates the trimmed inputs verbatim with exactly one space. -/
theorem merge_text_whitespace_invariants (p n : List Char) :
    pyStrip (merge_text p n) = merge_text p n ∧
    merge_text p n = merge_text (pyStrip p) (pyStrip n) ∧
    (pyStrip p ≠ [] → pyStrip n ≠ [] →
      ((∃ k, 1 ≤ k ∧
          k ≤ min 6 (min (pySplit (pyStrip p)).length (pySplit (pyStrip n)).length) ∧
          wMatch (pySplit (pyStrip p)) (pySplit (pyStrip n)) k) →
        ∃ ws, ws ≠ [] ∧ (∀ w ∈ ws, w ≠ [] ∧ ∀ c ∈ w, pySpace c = false) ∧
          merge_text p n = joinWords ws) ∧
      ((∀ j, j < min 6 (min (pySplit (pyStrip p)).length (pySplit (pyStrip n)).length) + 1 →
          1 ≤ j → ¬ wMatch (pySplit (pyStrip p)) (pySplit (pyStrip n)) j) →
        merge_text p n = pyStrip p ++ ' ' :: pyStrip n)) := by
  refine ⟨?_, ?_, ?_⟩
  · by_cases hp : pyStrip p = []
    · have hm : merge_text p n = pyStrip n := by
        simp only [merge_text]; rw [if_pos hp]
      rw [hm]; exact pyStrip_idem n
    · by_cases hn : pyStrip n = []
      · have hm : merge_text p n = pyStrip p := by
          simp only [merge_text]; rw [if_neg hp, if_pos hn]
        rw [hm]; exact pyStrip_idem p
      · rcases hloop : mergeLoop (pySplit (pyStrip p)) (pySplit (pyStrip n))
            (min 6 (min (pySplit (pyStrip p)).length (pySplit (pyStrip n)).length))
          with _ | ws
        · have hm : merge_text p n = pyStrip (pyStrip p ++ ' ' :: pyStrip n) := by
            simp only [merge_text]; rw [if_neg hp, if_neg hn, hloop]
          rw [hm]; exact pyStrip_idem _
        · have hm : merge_text p n = joinWords ws := by
            simp only [merge_text]; rw [if_neg hp, if_neg hn, hloop]
          have hwords : ∀ w ∈ ws, w ≠ [] ∧ ∀ c ∈ w, pySpace c = false := by
            intro w hw
            rcases mergeLoop_mem _ ws hloop w hw with h | h
            · exact pySplit_words w h
            · exact pySplit_words w h
          rw [hm]
          exact pyStrip_eq_self (joinWords_head?_false ws hwords)
            (joinWords_getLast?_false ws hwords)
  · simp only [merge_text, pyStrip_idem]
  · intro hp hn
    constructor
    · rintro ⟨k, hk1, hk2, hmatch⟩
      obtain ⟨ws, hloop⟩ := mergeLoop_isSome hk1 hmatch _ hk2
      have hm : merge_text p n = joinWords ws := by
        simp only [merge_text]; rw [if_neg hp, if_neg hn, hloop]
      have hwords : ∀ w ∈ ws, w ≠ [] ∧ ∀ c ∈ w, pySpace c = false := by
        intro w hw
        rcases mergeLoop_mem _ ws hloop w hw with h | h
        · exact pySplit_words w h
        · exact pySplit_words w h
      have hNnil : pySplit (pyStrip n) ≠ [] :=
        pySplit_ne_nil hn (fun x hx => pyStrip_head?_false hx)
      obtain ⟨k2, hshape⟩ := mergeLoop_shape _ ws hloop
      refine ⟨ws, ?_, hwords, hm⟩
      rw [hshape]
      intro habs
      exact hNnil (List.append_eq_nil.mp habs).2
    · intro hno
      have hloop := mergeLoop_eq_none _
        (fun j h1 h2 => hno j (Nat.lt_succ_of_le h2) h1)
      have hm : merge_text p n = pyStrip (pyStrip p ++ ' ' :: pyStrip n) := by
        simp only [merge_text]; rw [if_neg hp, if_neg hn, hloop]
      rw [hm]
      exact pyStrip_concat_eq_self hp hn

/-- Witness for claim C10: concrete inputs with outer whitespace and an
internal whitespace run, exercising the overlap path. -/
theorem merge_text_whitespace_invariants_witness :
    pyStrip (merge_text ("  the quick brown  ".toList) (" brown   fox ".toList)) =
      merge_text ("  the quick brown  ".toList) (" brown   fox ".toList) ∧
    merge_text ("  the quick brown  ".toList) (" brown   fox ".toList) =
      merge_text (pyStrip ("  the quick brown  ".toList))
        (pyStrip (" brown   fox ".toList)) ∧
    ∃ ws, ws ≠ [] ∧ (∀ w ∈ ws, w ≠ [] ∧ ∀ c ∈ w, pySpace c = false) ∧
      merge_text ("  the quick brown  ".toList) (" brown   fox ".toList) =
        joinWords ws := by
  have h := merge_text_whitespace_invariants ("  the quick brown  ".toList)
    (" brown   fox ".toList)
  exact ⟨h.1, h.2.1,
    (h.2.2 (by decide) (by decide)).1 ⟨1, by decide, by decide, by decide⟩⟩

/-- Claim C6: with at least chunkB bytes buffered, the cut returns
exactly the front chunkB bytes as the window and the remaining buffer
begins with the window's final overlapB bytes (holding exactly overlapB
bytes when the buffer held exactly chunkB); with fewer than chunkB bytes
no window is produced and the buffer — the concatenation of the appended
pieces, whose length is the sum of the appended lengths — is unchanged. -/
theorem try_cut_window_correct (chunkB overlapB : Nat) (buf : List Nat)
    (hov : overlapB ≤ chunkB) :
    (chunkB ≤ buf.length →
      ∃ w rest, try_cut_window chunkB overlapB buf = (some w, rest) ∧
        w = buf.take chunkB ∧ w.length = chunkB ∧
        rest.take overlapB = w.drop (chunkB - overlapB) ∧
        (buf.length = chunkB → rest.length = overlapB)) ∧
    (buf.length < chunkB → try_cut_window chunkB overlapB buf = (none, buf)) ∧
    (∀ pieces : List (List Nat), buf = pieces.flatten →
      buf.length = (pieces.map List.length).sum) := by
  refine ⟨?_, ?_, ?_⟩
  · intro hlen
    refine ⟨buf.take chunkB, buf.drop (chunkB - overlapB), ?_, rfl, ?_, ?_, ?_⟩
    · unfold try_cut_window
      rw [if_neg (not_lt.mpr hlen)]
    · exact List.length_take_of_le hlen
    · rw [List.drop_take]
      congr 1
      omega
    · intro he
      rw [List.length_drop, he]
      omega
  · intro hlen
    unfold try_cut_window
    rw [if_pos hlen]
  · intro pieces hp
    rw [hp]
    exact List.length_flatten pieces

/-- Witness for claim C6: a buffer of exactly chunkB bytes with chunkB =
4 and overlapB = 1. -/
theorem try_cut_window_correct_witness :
    (∃ w rest, try_cut_window 4 1 [10, 11, 12, 13] = (some w, rest) ∧
      w = [10, 11, 12, 13].take 4 ∧ w.length = 4 ∧
      rest.take 1 = w.drop 3 ∧
      (([10, 11, 12, 13] : List Nat).length = 4 → rest.length = 1)) :=
  (try_cut_window_correct 4 1 [10, 11, 12, 13] (by decide)).1 (by decide)

/-- Claim C7: the audio duration of a recognized window is its byte
length over the bytes-per-second of the session AudioSpec, and the
real-time factor is latency over duration, 0 when the duration is 0. -/
theorem audio_sec_rtf_correct (nbytes : Nat) (latency : ℚ) :
    audio_sec nbytes = (nbytes : ℚ) / (bytesPerSecond sessionSpec : ℚ) ∧
    rtf latency nbytes =
      (if audio_sec nbytes = 0 then 0 else latency / audio_sec nbytes) := by
  constructor
  · unfold audio_sec bytesPerSecond sessionSpec SAMPLE_RATE CHANNELS SAMPLE_WIDTH
    norm_num
  · unfold rtf
    by_cases h : audio_sec nbytes = 0
    · rw [if_neg (by rw [h]; exact lt_irrefl 0), if_pos h]
    · have hnn : 0 ≤ audio_sec nbytes := by
        unfold audio_sec SAMPLE_RATE SAMPLE_WIDTH
        positivity
      rw [if_pos (lt_of_le_of_ne hnn (Ne.symm h)), if_neg h]

/-- Claim C8: a WindowPolicy with overlap_seconds at least chunk_seconds
is rejected before any capture: the gate answers rejected and its result
does not depend on the capture session at all. -/
theorem streamingGate_rejects {α : Type} (capture capture2 : ℚ → ℚ → α)
    (chunk_seconds overlap_seconds : ℚ)
    (h : overlap_seconds ≥ chunk_seconds) :
    streamingGate capture chunk_seconds overlap_seconds = ConfigCheck.rejected ∧
    streamingGate capture chunk_seconds overlap_seconds =
      streamingGate capture2 chunk_seconds overlap_seconds := by
  constructor
  · unfold streamingGate
    rw [if_pos h]
  · unfold streamingGate
    rw [if_pos h, if_pos h]

/-- Witness for claim C8: the specification's test case chunk_seconds =
2.0, overlap_seconds = 2.0 is rejected. -/
theorem streamingGate_rejects_witness :
    streamingGate (fun _ _ => (0 : Nat)) 2 2 = ConfigCheck.rejected :=
  (streamingGate_rejects (fun _ _ => (0 : Nat)) (fun _ _ => 1) 2 2 (le_refl 2)).1

/-- Claim C9: a clip session with zero captured bytes reports no audio —
and only then — and in that case the transcription function (container
writing plus recognizer call) is never consulted. -/
theorem clipFinish_no_audio {α : Type} (transcribe : List Nat → α)
    (pcm : List Nat) :
    (clipFinish transcribe pcm = ClipOutcome.noAudio ↔ pcm = []) ∧
    (pcm = [] → ∀ transcribe2 : List Nat → α,
      clipFinish transcribe pcm = clipFinish transcribe2 pcm) := by
  constructor
  · constructor
    · intro h
      by_contra hne
      unfold clipFinish at h
      rw [if_neg hne] at h
      exact ClipOutcome.noConfusion h
    · intro h
      unfold clipFinish
      rw [if_pos h]
  · intro h t2
    subst h
    rfl

/-- Witness for claim C9: the empty capture. -/
theorem clipFinish_no_audio_witness :
    clipFinish (fun l => l) ([] : List Nat) = ClipOutcome.noAudio :=
  (clipFinish_no_audio (fun l => l) []).1.mpr rfl

/-- A concrete recognizer oracle for the streaming-loop theorems: it
fails on the window [0, 0] and succeeds on every other window. -/
def recognizeStub (w : List Nat) : Except (List Char) (List Char × ℚ) :=
  if w = [0, 0] then Except.error ("fail".toList)
  else Except.ok ("hello".toList, 1)

/-- Counterexample for claim C1: the recognizer fails on the first
window and would succeed on the second, yet the session loop terminates
with the error — the loop does not continue to the next window, no
recovered transcript is produced, and the final report state is never
reached. -/
theorem streaming_error_aborts_session :
    streamLoop recognizeStub 2 0 { buffer := [], confirmed := [] }
      [[0, 0], [1, 1]] = Except.error ("fail".toList) ∧
    ∀ st : StreamState,
      streamLoop recognizeStub 2 0 { buffer := [], confirmed := [] }
        [[0, 0], [1, 1]] ≠ Except.ok st := by
  have h : streamLoop recognizeStub 2 0 { buffer := [], confirmed := [] }
      [[0, 0], [1, 1]] = Except.error ("fail".toList) := rfl
  exact ⟨h, fun st hst => by rw [h] at hst; exact Except.noConfusion hst⟩

/-- Claim C1 (amended): a RecognizerError raised by a recognition
invocation during the Running state is not handled by the session loop —
it propagates, the remaining reads are never processed, and the loop
result is the error itself rather than any continuing session state. -/
theorem streamLoop_error_of_recognizer_error
    (recognize : List Nat → Except (List Char) (List Char × ℚ))
    (chunkB overlapB : Nat) (st : StreamState) (d : List Nat)
    (rest : List (List Nat)) (e : List Char)
    (hd : d ≠ [])
    (hlen : chunkB ≤ (st.buffer ++ d).length)
    (hrec : recognize ((st.buffer ++ d).take chunkB) = Except.error e) :
    streamLoop recognize chunkB overlapB st (d :: rest) = Except.error e := by
  have hcut : try_cut_window chunkB overlapB (st.buffer ++ d) =
      (some ((st.buffer ++ d).take chunkB),
       (st.buffer ++ d).drop (chunkB - overlapB)) := by
    unfold try_cut_window
    rw [if_neg (not_lt.mpr hlen)]
  have hstep : streamStep recognize chunkB overlapB st d = Except.error e := by
    simp only [streamStep, hcut, hrec]
  unfold streamLoop
  rw [if_neg hd, hstep]

/-- Witness for claim C1: a session with a nonempty buffer and a
pending read whose window the recognizer rejects. -/
theorem streamLoop_error_of_recognizer_error_witness :
    streamLoop recognizeStub 2 0 { buffer := [0], confirmed := ("x").toList }
      [[0], [9, 9]] = Except.error ("fail".toList) :=
  streamLoop_error_of_recognizer_error recognizeStub 2 0
    { buffer := [0], confirmed := ("x").toList } [0] [[9, 9]]
    ("fail".toList) (by decide) (by decide) rfl

lemma pyInt_eq_floor {q : ℚ} (h : 0 ≤ q) : pyInt q = ⌊q⌋ := by
  unfold pyInt
  rw [Rat.floor_def]
  exact Int.tdiv_eq_ediv (Rat.num_nonneg.mpr h) (Int.ofNat_nonneg q.den)

/-- Claim C3 (amended): for a policy accepted at session start the window
size is the truncation — the floor, as the product is nonnegative — of
chunk_seconds * sample_rate * channels * sample_width, not its rounding
to nearest, and likewise for the retained overlap; the channels factor is
absent from the code's expression but equals 1. -/
theorem chunk_overlap_bytes_floor (c o : ℚ) (hc : 0 ≤ c) (ho : 0 ≤ o) :
    chunk_bytes c = ⌊c * ((SAMPLE_RATE * CHANNELS * SAMPLE_WIDTH : ℕ) : ℚ)⌋ ∧
    overlap_bytes o = ⌊o * ((SAMPLE_RATE * CHANNELS * SAMPLE_WIDTH : ℕ) : ℚ)⌋ := by
  have hcast : ((SAMPLE_RATE * CHANNELS * SAMPLE_WIDTH : ℕ) : ℚ) =
      (SAMPLE_RATE : ℚ) * (SAMPLE_WIDTH : ℚ) := by
    norm_num [SAMPLE_RATE, CHANNELS, SAMPLE_WIDTH]
  constructor
  · unfold chunk_bytes
    rw [pyInt_eq_floor (by
      have : (0 : ℚ) ≤ (SAMPLE_RATE : ℚ) := by norm_num [SAMPLE_RATE]
      have h2 : (0 : ℚ) ≤ (SAMPLE_WIDTH : ℚ) := by norm_num [SAMPLE_WIDTH]
      exact mul_nonneg (mul_nonneg hc this) h2)]
    rw [hcast, mul_assoc]
  · unfold overlap_bytes
    rw [pyInt_eq_floor (by
      have : (0 : ℚ) ≤ (SAMPLE_RATE : ℚ) := by norm_num [SAMPLE_RATE]
      have h2 : (0 : ℚ) ≤ (SAMPLE_WIDTH : ℚ) := by norm_num [SAMPLE_WIDTH]
      exact mul_nonneg (mul_nonneg ho this) h2)]
    rw [hcast, mul_assoc]

/-- Witness for claim C3: the default policy chunk_seconds = 4.0,
overlap_seconds = 1.0. -/
theorem chunk_overlap_bytes_floor_witness :
    chunk_bytes 4 = ⌊(4 : ℚ) * ((SAMPLE_RATE * CHANNELS * SAMPLE_WIDTH : ℕ) : ℚ)⌋ ∧
    overlap_bytes 1 = ⌊(1 : ℚ) * ((SAMPLE_RATE * CHANNELS * SAMPLE_WIDTH : ℕ) : ℚ)⌋ :=
  chunk_overlap_bytes_floor 4 1 (by norm_num) (by norm_num)

/-- Counterexample for claim C3: at chunk_seconds = 2 + 3/131072 — a
dyadic rational exactly representable as a binary floating-point value,
so the Python float product is exact — the code's int() truncation gives
64000 while the rounding the claim states gives 64001. -/
theorem chunk_bytes_not_round :
    chunk_bytes (2 + 3 / 131072) = 64000 ∧
    round ((2 + 3 / 131072 : ℚ) *
      ((SAMPLE_RATE * CHANNELS * SAMPLE_WIDTH : ℕ) : ℚ)) = 64001 := by
  constructor
  · unfold chunk_bytes
    rw [pyInt_eq_floor (by norm_num [SAMPLE_RATE, SAMPLE_WIDTH])]
    norm_num [SAMPLE_RATE, SAMPLE_WIDTH]
  · have hcast : ((SAMPLE_RATE * CHANNELS * SAMPLE_WIDTH : ℕ) : ℚ) = 32000 := by
      norm_num [SAMPLE_RATE, CHANNELS, SAMPLE_WIDTH]
    rw [hcast, round_eq]
    norm_num

/-- Counterexample for claim C4: a recognizer run with zero exit status
and no usable output (empty stdout) does not fail — run_transcribe
answers success with empty text, against the claimed iff. -/
theorem run_transcribe_empty_output_not_error :
    ¬ ((∃ e, run_transcribe { returncode := 0, stdout := [], stderr := [] } 1 =
          Except.error e) ↔
       ((0 : Int) ≠ 0 ∨ pyStrip ([] : List Char) = [])) := by
  intro h
  obtain ⟨e, he⟩ := h.mpr (Or.inr rfl)
  have hok : run_transcribe { returncode := 0, stdout := [], stderr := [] } 1 =
      Except.ok ([], 1) := rfl
  rw [hok] at he
  exact Except.noConfusion he

/-- Claim C4 (amended): run_transcribe fails exactly when the external
call reports a nonzero exit status — empty output under zero status is
success with empty text, not an error; on success it returns the
stripped stdout together with the measured latency, and on failure the
error carries the stripped stderr or a fixed message when that is
empty. -/
theorem run_transcribe_error_iff (r : ProcResult) (latency : ℚ) :
    ((∃ e, run_transcribe r latency = Except.error e) ↔ r.returncode ≠ 0) ∧
    (r.returncode = 0 →
      run_transcribe r latency = Except.ok (pyStrip r.stdout, latency)) ∧
    (r.returncode ≠ 0 →
      run_transcribe r latency = Except.error
        (if pyStrip r.stderr ≠ [] then pyStrip r.stderr
         else "Transcription command failed".toList)) := by
  refine ⟨⟨?_, ?_⟩, ?_, ?_⟩
  · rintro ⟨e, he⟩ h0
    unfold run_transcribe at he
    rw [if_neg (fun hc => hc h0)] at he
    exact Except.noConfusion he
  · intro h
    refine ⟨if pyStrip r.stderr ≠ [] then pyStrip r.stderr
      else "Transcription command failed".toList, ?_⟩
    unfold run_transcribe
    rw [if_pos h]
  · intro h
    unfold run_transcribe
    rw [if_neg (fun hc => hc h)]
  · intro h
    unfold run_transcribe
    rw [if_pos h]

/-- Witness for claim C4: a failing run with exit status 1 and a stderr
needing trimming. -/
theorem run_transcribe_error_iff_witness :
    run_transcribe { returncode := 1, stdout := [], stderr := (" boom ").toList } 2 =
      Except.error (("boom").toList) := by
  have h := (run_transcribe_error_iff
    { returncode := 1, stdout := [], stderr := (" boom ").toList } 2).2.2 (by decide)
  exact h.trans (congrArg Except.error (by decide))
